import Mathlib

/-!
Verification development for the pycircuit analysis engine
(`src/pycircuit/circuit/analysis.py`).

The engine is embedded shallowly:

* state vectors are `List` over an exact scalar field — `ℚ` for the real-valued
  transient integrators, and the Gaussian-rational field `GaussRat` (an exact
  model of the complex floating-point scalars) for the AC, transimpedance and
  noise solvers;
* dense matrices are lists of rows;
* the circuit collaborators (`G`, `C`, `u`, `i`, `CY`, node/branch index
  lookup, `extract_v`/`extract_i`) and the toolkit collaborators
  (`linearsolver`, `toMatrix`, scipy's `fsolve`) are external per the spec and
  are taken as parameters of the embedded analyses;
* a Python function that may raise is embedded with an `Except PyErr` result;
  a function whose body cannot raise is embedded as always returning
  `Except.ok`, and evaluation of an unresolved global name (the bare `fsolve`
  in `Tran_imp.solve_timestep`) is embedded as raising `NameError`.
-/

namespace PyCircuit

/-! ## Basic dense linear algebra on lists (numpy operations used by the engine) -/

section ListAlgebra

variable {K : Type} [Add K] [Sub K] [Neg K] [Mul K] [Div K] [Zero K]

/-- numpy `dot` of two equal-length vectors. -/
def dotProd (xs ys : List K) : K :=
  (List.zipWith (· * ·) xs ys).sum

/-- numpy `dot(A, x)`: matrix (list of rows) times column vector. -/
def matVec (A : List (List K)) (x : List K) : List K :=
  A.map (fun row => dotProd row x)

/-- numpy `dot(z, A)`: row vector times matrix. -/
def vecMat (z : List K) (A : List (List K)) : List K :=
  A.transpose.map (fun col => dotProd z col)

/-- Elementwise vector sum (numpy `+` on arrays). -/
def vecAdd (xs ys : List K) : List K :=
  List.zipWith (· + ·) xs ys

/-- Elementwise vector difference. -/
def vecSub (xs ys : List K) : List K :=
  List.zipWith (· - ·) xs ys

/-- Elementwise vector negation (numpy unary `-`). -/
def negVec (xs : List K) : List K :=
  xs.map (fun a => -a)

/-- Scalar times vector. -/
def smulVec (s : K) (xs : List K) : List K :=
  xs.map (fun a => s * a)

/-- Elementwise matrix sum. -/
def matAdd (A B : List (List K)) : List (List K) :=
  List.zipWith vecAdd A B

/-- Scalar times matrix. -/
def smulMat (s : K) (A : List (List K)) : List (List K) :=
  A.map (smulVec s)

/-- Matrix divided elementwise by a scalar (numpy `A / dt`). -/
def matDivScalar (A : List (List K)) (d : K) : List (List K) :=
  A.map (fun row => row.map (fun a => a / d))

/-- numpy `zeros(n)`. -/
def zeroVec (n : ℕ) : List K :=
  List.replicate n 0

end ListAlgebra

/-! ## Reference-node elimination (`remove_row_col`, analysis.py lines 74-80)
and the concatenate-based reinsertion used after every linear solve. -/

/-- Embedding of `remove_row_col` applied to a vector: `np.delete(v, [r], axis=0)`,
i.e. the element at index `r` is removed. -/
def remove_row_col_vec {α : Type} (v : List α) (r : ℕ) : List α :=
  v.eraseIdx r

/-- Embedding of `remove_row_col` applied to a square matrix: `np.delete` along both axes,
i.e. row `r` and column `r` are removed. -/
def remove_row_col_mat {α : Type} (A : List (List α)) (r : ℕ) : List (List α) :=
  (A.eraseIdx r).map (fun row => row.eraseIdx r)

/-- The engine's reinsertion of the reference-node entry:
`concatenate((x[:r], array([0.0]), x[r:]))`. -/
def reinsert_zero {K : Type} [Zero K] (x : List K) (r : ℕ) : List K :=
  x.take r ++ [0] ++ x.drop r

/-! ### Elimination / reinsertion lemmas -/

theorem roundtrip_eq_take_drop {K : Type} [Zero K] (v : List K) (r : ℕ)
    (h : r < v.length) :
    reinsert_zero (remove_row_col_vec v r) r
      = v.take r ++ [0] ++ v.drop (r + 1) := by
  have he : v.eraseIdx r = v.take r ++ v.drop (r + 1) :=
    List.eraseIdx_eq_take_drop_succ v r
  have htk : (v.take r).length = r := by
    simp only [List.length_take]; omega
  simp only [reinsert_zero, remove_row_col_vec, he]
  congr 1
  · congr 1
    rw [List.take_append_eq_append_take, htk]
    simp [List.take_take]
  · rw [List.drop_append_eq_append_drop, htk]
    simp

theorem length_roundtrip {K : Type} [Zero K] (v : List K) (r : ℕ)
    (h : r < v.length) :
    (reinsert_zero (remove_row_col_vec v r) r).length = v.length := by
  rw [roundtrip_eq_take_drop v r h]
  simp only [List.length_append, List.length_take, List.length_drop,
    List.length_cons, List.length_nil]
  omega

theorem roundtrip_getD_ne {K : Type} [Zero K] (v : List K) (r : ℕ)
    (h : r < v.length) (i : ℕ) (hi : i < v.length) (hne : i ≠ r) :
    (reinsert_zero (remove_row_col_vec v r) r).getD i 0 = v.getD i 0 := by
  rw [roundtrip_eq_take_drop v r h]
  have htk : (v.take r).length = r := by
    simp only [List.length_take]; omega
  rcases lt_or_gt_of_ne hne with hlt | hgt
  · rw [List.getD_append _ _ _ _ (by simp only [List.length_append, htk,
      List.length_cons, List.length_nil]; omega)]
    rw [List.getD_append _ _ _ _ (by rw [htk]; omega)]
    rw [List.getD_eq_getElem?_getD, List.getD_eq_getElem?_getD,
      List.getElem?_take, if_pos hlt]
  · have hlen2 : (v.take r ++ [0]).length = r + 1 := by
      simp [htk]
    rw [List.getD_append_right _ _ _ _ (by rw [hlen2]; omega)]
    rw [hlen2]
    rw [List.getD_eq_getElem?_getD, List.getD_eq_getElem?_getD,
      List.getElem?_drop]
    have : r + 1 + (i - (r + 1)) = i := by omega
    rw [this]

theorem roundtrip_getD_at {K : Type} [Zero K] (v : List K) (r : ℕ)
    (h : r < v.length) :
    (reinsert_zero (remove_row_col_vec v r) r).getD r 0 = 0 := by
  rw [roundtrip_eq_take_drop v r h]
  have htk : (v.take r).length = r := by
    simp only [List.length_take]; omega
  rw [List.getD_append _ _ _ _ (by simp only [List.length_append, htk,
    List.length_cons, List.length_nil]; omega)]
  rw [List.getD_append_right _ _ _ _ (by omega)]
  simp [htk]

/-- C1: for every vector `v` of length `n` and index `r < n`, reinserting a
zero at position `r` into `remove_row_col((v,), r)` yields a length-`n` vector
that equals `v` at every index other than `r` and equals `0` at index `r`. -/
theorem elimination_roundtrip (v : List ℚ) (r : ℕ) (h : r < v.length) :
    (reinsert_zero (remove_row_col_vec v r) r).length = v.length ∧
    (∀ i, i < v.length → i ≠ r →
      (reinsert_zero (remove_row_col_vec v r) r).getD i 0 = v.getD i 0) ∧
    (reinsert_zero (remove_row_col_vec v r) r).getD r 0 = 0 :=
  ⟨length_roundtrip v r h,
   fun i hi hne => roundtrip_getD_ne v r h i hi hne,
   roundtrip_getD_at v r h⟩

/-- Witness for C1 at the concrete vector `[5, 7, 9]` and index `1`. -/
theorem elimination_roundtrip_witness :
    (1 < ([5, 7, 9] : List ℚ).length) ∧
    ((reinsert_zero (remove_row_col_vec ([5, 7, 9] : List ℚ) 1) 1).length = 3 ∧
     (reinsert_zero (remove_row_col_vec ([5, 7, 9] : List ℚ) 1) 1).getD 0 0 = 5 ∧
     (reinsert_zero (remove_row_col_vec ([5, 7, 9] : List ℚ) 1) 1).getD 2 0 = 9 ∧
     (reinsert_zero (remove_row_col_vec ([5, 7, 9] : List ℚ) 1) 1).getD 1 0 = 0) := by
  refine ⟨by decide, ?_, ?_, ?_, ?_⟩
  · exact ((elimination_roundtrip [5, 7, 9] 1 (by decide)).1).trans (by decide)
  · exact (elimination_roundtrip [5, 7, 9] 1 (by decide)).2.1 0 (by decide) (by decide) |>.trans (by decide)
  · exact (elimination_roundtrip [5, 7, 9] 1 (by decide)).2.1 2 (by decide) (by decide) |>.trans (by decide)
  · exact (elimination_roundtrip [5, 7, 9] 1 (by decide)).2.2

/-! ## Python-level error values

The engine declares two exception classes of its own (analysis.py lines 22-26);
`ValueError` is Python's builtin raised by the `Noise` constructor,
`NameError` is Python's builtin raised when an unresolved global name is
evaluated (the bare `fsolve` at line 270), and `LinAlgError` is the error
numpy's `linalg.solve` raises on a singular coefficient matrix (numpy is an
external collaborator). -/

inductive PyErr : Type
  | NoConvergenceError : PyErr
  | SingularMatrix : PyErr
  | LinAlgError : PyErr
  | ValueError : String → PyErr
  | NameError : String → PyErr
deriving DecidableEq, Repr

instance instDecEqExcept {ε α : Type} [DecidableEq ε] [DecidableEq α] :
    DecidableEq (Except ε α) := fun x y =>
  match x, y with
  | .error e, .error f =>
    if h : e = f then isTrue (by rw [h])
    else isFalse (fun hc => h (Except.error.inj hc))
  | .error _, .ok _ => isFalse (fun hc => Except.noConfusion hc)
  | .ok _, .error _ => isFalse (fun hc => Except.noConfusion hc)
  | .ok a, .ok b =>
    if h : a = b then isTrue (by rw [h])
    else isFalse (fun hc => h (Except.ok.inj hc))

/-! ## Transient integrators (real arithmetic, modelled over `ℚ`) -/

/-- The state-vector and matrix types used by the transient integrators. -/
abbrev Vec := List ℚ

abbrev Mat := List (List ℚ)

/-- The circuit collaborator as consumed by the transient integrators:
`n`, the matrix-stamp functions `G(x)`, `C(x)`, `u(x)`, `i(x)` (the optional
`epar`/`analysis` arguments are folded into the functions). -/
structure TranCircuit where
  n : ℕ
  Gmat : Vec → Mat
  Cmat : Vec → Mat
  uvec : Vec → Vec
  ivec : Vec → Vec

/-- numpy's `linalg.solve`, an external collaborator; it may raise
(`LinAlgError` on a singular matrix), hence the `Except` result. -/
abbrev LinSolver := Mat → Vec → Except PyErr Vec

/-- Model of `numpy.linspace(0, tend, num = N, endpoint = True)` (external numpy):
`N` evenly spaced points running from `0` to `tend`, with spacing
`retstep = tend / (N - 1)`. -/
def linspaceQ (tend : ℚ) (N : ℕ) : List ℚ :=
  (List.range N).map (fun k : ℕ => (k : ℚ) * (tend / ((N : ℚ) - 1)))

/-- Python's `int(tend/timestep)` for positive arguments (truncation = floor). -/
def numSteps (tend timestep : ℚ) : ℕ :=
  (⌊tend / timestep⌋).toNat

/-- Last element of the history list: Python's `X[-1]`. -/
def pyLast (X : List Vec) : Vec :=
  X.getLastD []

/-- Second-to-last element of the history list: Python's `X[-2]`. -/
def pyLast2 (X : List Vec) : Vec :=
  X.dropLast.getLastD []

/-- One iteration of the `Tran_spec.solve` loop body (analysis.py lines
180-195), translated statement by statement:
`G = cir.G(X[-1])`; `Geq = cir.C(X[-1])/dt`; `u = cir.u(X[-1])`;
`ueq = -dot(Geq, X[-2])`; `G += Geq`; `u += ueq`;
`G, u = remove_row_col((G, u), irefnode)`; `x = linalg.solve(G, -u)`;
reinsert `0.0` at the reference index. -/
def tran_spec_step (cir : TranCircuit) (solver : LinSolver) (irefnode : ℕ)
    (dt : ℚ) (xlast xprev : Vec) : Except PyErr Vec :=
  let G := cir.Gmat xlast
  let Geq := matDivScalar (cir.Cmat xlast) dt
  let u := cir.uvec xlast
  let ueq := negVec (matVec Geq xprev)
  let G2 := matAdd G Geq
  let u2 := vecAdd u ueq
  let Gr := remove_row_col_mat G2 irefnode
  let ur := remove_row_col_vec u2 irefnode
  match solver Gr (negVec ur) with
  | .error e => .error e
  | .ok xsol => .ok (reinsert_zero xsol irefnode)

/-- The `for t in times` loop of `Tran_spec.solve`: the body ignores `t`
itself and appends each new state to the history `X`. -/
def tran_spec_run (step : Vec → Vec → Except PyErr Vec) :
    List ℚ → List Vec → Except PyErr (List Vec)
  | [], X => .ok X
  | _t :: ts, X =>
    match step (pyLast X) (pyLast2 X) with
    | .error e => .error e
    | .ok x => tran_spec_run step ts (X ++ [x])

/-- Embedding of `Tran_spec.solve(refnode, tend, x0, timestep)` (analysis.py lines
161-197).  `irefnode = cir.get_node_index(refnode)` is an external lookup and
is passed resolved.  The history starts with `order = 2` copies of the initial
state; the grid is `linspace(0, tend, num = int(tend/timestep), endpoint =
True, retstep = True)`.  Returns the retained history `self.result` together
with the returned final state. -/
def Tran_spec_solve (cir : TranCircuit) (solver : LinSolver) (irefnode : ℕ)
    (tend timestep : ℚ) (x0 : Option Vec) : Except PyErr (List Vec × Vec) :=
  let x : Vec := match x0 with
    | none => zeroVec cir.n
    | some v => v
  let N : ℕ := numSteps tend timestep
  let dt : ℚ := tend / ((N : ℚ) - 1)
  let times : List ℚ := linspaceQ tend N
  match tran_spec_run (tran_spec_step cir solver irefnode dt) times [x, x] with
  | .error e => .error e
  | .ok X => .ok (X, pyLast X)

/-- One forward-Euler step exactly as the spec states it (§4.2, steps 2-5):
`Geq = C(x(k))/dt`, `G_total = G(x(k)) + Geq`,
`u_total = u(x(k)) - Geq·x(k-1)`; eliminate the reference row/column from
`G_total` and `u_total`; solve the reduced system `G_total·x' = -u_total`
with a single linear solve; reinsert `0` at the reference index. -/
def forwardEulerStep (cir : TranCircuit) (solver : LinSolver) (irefnode : ℕ)
    (dt : ℚ) (xk xkm1 : Vec) : Except PyErr Vec :=
  let Geq := matDivScalar (cir.Cmat xk) dt
  let Gtotal := matAdd (cir.Gmat xk) Geq
  let utotal := vecSub (cir.uvec xk) (matVec Geq xkm1)
  match solver (remove_row_col_mat Gtotal irefnode)
      (negVec (remove_row_col_vec utotal irefnode)) with
  | .error e => .error e
  | .ok xsol => .ok (reinsert_zero xsol irefnode)

/-- The forward-Euler recurrence as the spec states it: from the two most
recent states `x(k), x(k-1)`, produce the next `count` states in order. -/
def forwardEulerStates (cir : TranCircuit) (solver : LinSolver) (irefnode : ℕ)
    (dt : ℚ) : ℕ → Vec → Vec → Except PyErr (List Vec)
  | 0, _, _ => .ok []
  | count + 1, xk, xkm1 =>
    match forwardEulerStep cir solver irefnode dt xk xkm1 with
    | .error e => .error e
    | .ok x =>
      match forwardEulerStates cir solver irefnode dt count x xk with
      | .error e => .error e
      | .ok rest => .ok (x :: rest)

/-- The explicit-transient algorithm as the spec describes it (§4.2):
seed the history with two copies of the initial state, take
`int(tend/timestep)` forward-Euler steps with the recomputed step size
`dt = tend/(N-1)`, retain every state, and return the final state. -/
def Tran_spec_solve_alg (cir : TranCircuit) (solver : LinSolver) (irefnode : ℕ)
    (tend timestep : ℚ) (x0 : Option Vec) : Except PyErr (List Vec × Vec) :=
  let x : Vec := match x0 with
    | none => zeroVec cir.n
    | some v => v
  let N : ℕ := numSteps tend timestep
  let dt : ℚ := tend / ((N : ℚ) - 1)
  match forwardEulerStates cir solver irefnode dt N x x with
  | .error e => .error e
  | .ok tail => .ok ([x, x] ++ tail, pyLast ([x, x] ++ tail))

/-! ### Equivalence of the loop with the spec recurrence -/

theorem vecAdd_neg_eq_vecSub {K : Type} [Ring K] (u w : List K) :
    vecAdd u (negVec w) = vecSub u w := by
  simp only [vecAdd, negVec, vecSub, List.zipWith_map_right]
  congr 1
  funext a b
  exact (sub_eq_add_neg a b).symm

theorem tran_spec_step_eq_forwardEulerStep (cir : TranCircuit)
    (solver : LinSolver) (irefnode : ℕ) (dt : ℚ) (xlast xprev : Vec) :
    tran_spec_step cir solver irefnode dt xlast xprev
      = forwardEulerStep cir solver irefnode dt xlast xprev := by
  simp only [tran_spec_step, forwardEulerStep, vecAdd_neg_eq_vecSub]

theorem pyLast_concat (X : List Vec) (x : Vec) : pyLast (X ++ [x]) = x := by
  simp [pyLast]

theorem pyLast2_concat (X : List Vec) (x : Vec) :
    pyLast2 (X ++ [x]) = pyLast X := by
  simp [pyLast2, pyLast, List.dropLast_concat]

theorem tran_spec_run_eq (step : Vec → Vec → Except PyErr Vec)
    (stepS : Vec → Vec → Except PyErr Vec)
    (hstep : ∀ a b, step a b = stepS a b)
    (statesS : ℕ → Vec → Vec → Except PyErr (List Vec))
    (hstates0 : ∀ a b, statesS 0 a b = .ok [])
    (hstatesS : ∀ k a b, statesS (k + 1) a b =
      match stepS a b with
      | .error e => .error e
      | .ok x =>
        match statesS k x a with
        | .error e => .error e
        | .ok rest => .ok (x :: rest)) :
    ∀ (ts : List ℚ) (X : List Vec),
      tran_spec_run step ts X
        = match statesS ts.length (pyLast X) (pyLast2 X) with
          | .error e => .error e
          | .ok tail => .ok (X ++ tail) := by
  intro ts
  induction ts with
  | nil =>
    intro X
    simp [tran_spec_run, hstates0]
  | cons t ts ih =>
    intro X
    simp only [tran_spec_run, List.length_cons, hstatesS, hstep]
    cases stepS (pyLast X) (pyLast2 X) with
    | error e => rfl
    | ok x =>
      dsimp only
      rw [ih (X ++ [x]), pyLast_concat, pyLast2_concat]
      cases statesS ts.length x (pyLast X) with
      | error e => rfl
      | ok rest => simp

theorem length_linspaceQ (tend : ℚ) (N : ℕ) : (linspaceQ tend N).length = N := by
  rw [linspaceQ, List.length_map, List.length_range]

theorem getD_linspaceQ (tend : ℚ) (N : ℕ) (k : ℕ) (hk : k < N) :
    (linspaceQ tend N).getD k 0 = (k : ℚ) * (tend / ((N : ℚ) - 1)) := by
  have hlen : k < (linspaceQ tend N).length := by
    rw [length_linspaceQ]; exact hk
  rw [List.getD_eq_getElem _ _ hlen]
  simp only [linspaceQ, List.getElem_map, List.getElem_range]

theorem tran_spec_run_from_seed (cir : TranCircuit) (solver : LinSolver)
    (irefnode : ℕ) (dt : ℚ) (times : List ℚ) (x : Vec) :
    tran_spec_run (tran_spec_step cir solver irefnode dt) times [x, x]
      = match forwardEulerStates cir solver irefnode dt times.length x x with
        | .error e => .error e
        | .ok tail => .ok ([x, x] ++ tail) := by
  rw [tran_spec_run_eq (tran_spec_step cir solver irefnode dt)
    (forwardEulerStep cir solver irefnode dt)
    (tran_spec_step_eq_forwardEulerStep cir solver irefnode dt)
    (forwardEulerStates cir solver irefnode dt)
    (fun _ _ => rfl) (fun _ _ _ => rfl) times [x, x]]
  rfl

theorem Tran_spec_solve_eq_alg (cir : TranCircuit) (solver : LinSolver)
    (irefnode : ℕ) (tend timestep : ℚ) (x0 : Option Vec) :
    Tran_spec_solve cir solver irefnode tend timestep x0
      = Tran_spec_solve_alg cir solver irefnode tend timestep x0 := by
  cases x0 with
  | none =>
    simp only [Tran_spec_solve, Tran_spec_solve_alg]
    rw [tran_spec_run_from_seed, length_linspaceQ]
    cases forwardEulerStates cir solver irefnode
        (tend / ((numSteps tend timestep : ℚ) - 1)) (numSteps tend timestep)
        (zeroVec cir.n) (zeroVec cir.n) with
    | error e => rfl
    | ok tail => rfl
  | some v =>
    simp only [Tran_spec_solve, Tran_spec_solve_alg]
    rw [tran_spec_run_from_seed, length_linspaceQ]
    cases forwardEulerStates cir solver irefnode
        (tend / ((numSteps tend timestep : ℚ) - 1)) (numSteps tend timestep)
        v v with
    | error e => rfl
    | ok tail => rfl

/-- C2: `Tran_spec.solve` equals the spec's explicit forward-Euler algorithm
(time grid of `int(tend/timestep)` evenly spaced points over `[0, tend]` with
recomputed step `dt = tend/(N-1)`; at each grid point `Geq = C(x(k))/dt`,
`G_total = G(x(k)) + Geq`, `u_total = u(x(k)) - Geq·x(k-1)`, reference
elimination, one linear solve of `G_total·x' = -u_total`, zero reinsertion,
state appended to the retained history), and the grid is uniform: point `k`
sits at `k·dt`, consecutive points differ by `dt`, the grid starts at `0` and
ends at `tend`. -/
theorem tran_spec_solve_correct (cir : TranCircuit) (solver : LinSolver)
    (irefnode : ℕ) (tend timestep : ℚ) (x0 : Option Vec) (N : ℕ) (dt : ℚ)
    (hN : N = numSteps tend timestep) (hdt : dt = tend / ((N : ℚ) - 1))
    (h2 : 2 ≤ N) :
    Tran_spec_solve cir solver irefnode tend timestep x0
      = Tran_spec_solve_alg cir solver irefnode tend timestep x0 ∧
    (linspaceQ tend N).length = N ∧
    (∀ k, k < N → (linspaceQ tend N).getD k 0 = (k : ℚ) * dt) ∧
    (∀ k, k + 1 < N →
      (linspaceQ tend N).getD (k + 1) 0 - (linspaceQ tend N).getD k 0 = dt) ∧
    (linspaceQ tend N).getD 0 0 = 0 ∧
    (linspaceQ tend N).getD (N - 1) 0 = tend := by
  subst hN hdt
  refine ⟨Tran_spec_solve_eq_alg cir solver irefnode tend timestep x0,
    length_linspaceQ _ _, fun k hk => getD_linspaceQ tend _ k hk, ?_, ?_, ?_⟩
  · intro k hk
    rw [getD_linspaceQ tend _ (k + 1) hk, getD_linspaceQ tend _ k (by omega)]
    push_cast
    ring
  · rw [getD_linspaceQ tend _ 0 (by omega)]
    simp
  · rw [getD_linspaceQ tend _ (numSteps tend timestep - 1) (by omega)]
    have hge : (2 : ℚ) ≤ (numSteps tend timestep : ℚ) := by exact_mod_cast h2
    have hne : ((numSteps tend timestep : ℚ) - 1) ≠ 0 := by
      intro hc
      have : (numSteps tend timestep : ℚ) = 1 := by linarith
      linarith
    have hcast : ((numSteps tend timestep - 1 : ℕ) : ℚ)
        = (numSteps tend timestep : ℚ) - 1 := by
      have h1 : 1 ≤ numSteps tend timestep := by omega
      push_cast [h1]
      ring
    rw [hcast]
    field_simp

theorem numSteps_one_quarter : numSteps 1 (1/4) = 4 := by
  have h4 : (1 : ℚ) / (1/4) = (4 : ℕ) := by norm_num
  rw [numSteps, h4, Int.floor_natCast]
  rfl

/-- Witness for C2: a concrete two-node linear circuit, a concrete solver,
`tend = 1`, `timestep = 1/4` (so `N = 4`, `dt = 1/3`). -/
theorem tran_spec_solve_correct_witness :
    (4 = numSteps 1 (1/4) ∧ ((1 : ℚ)/3) = 1 / ((4 : ℚ) - 1) ∧ 2 ≤ 4) ∧
    (Tran_spec_solve
        ⟨2, fun _ => [[1, 0], [0, 1]], fun _ => [[0, 0], [0, 0]],
          fun _ => [2, 3], fun _ => [0, 0]⟩
        (fun _A b => .ok b) 0 1 (1/4) none
      = Tran_spec_solve_alg
        ⟨2, fun _ => [[1, 0], [0, 1]], fun _ => [[0, 0], [0, 0]],
          fun _ => [2, 3], fun _ => [0, 0]⟩
        (fun _A b => .ok b) 0 1 (1/4) none ∧
     (linspaceQ 1 4).getD 3 0 = 1) := by
  refine ⟨⟨numSteps_one_quarter.symm, by norm_num, by decide⟩, ?_⟩
  have h := tran_spec_solve_correct
    ⟨2, fun _ => [[1, 0], [0, 1]], fun _ => [[0, 0], [0, 0]],
      fun _ => [2, 3], fun _ => [0, 0]⟩
    (fun _A b => .ok b) 0 1 (1/4) none 4 (1/3) numSteps_one_quarter.symm
    (by norm_num) (by decide)
  have hlast := h.2.2.2.2.2
  exact ⟨h.1, by simpa using hlast⟩

/-! ## Implicit transient integrator (`Tran_imp`, analysis.py lines 199-298)

The module imports scipy only as `from scipy import optimize` (line 9), yet
line 270 calls the bare name `fsolve(func, x0, fprime=fprime)`.  That name is
unresolved, so evaluating line 270 raises Python's `NameError` on every call:
the `func`/`fprime` closures and `rtol` are defined first (lines 252-268), and
then the step fails unconditionally before any nonlinear solver is invoked. -/

/-- The local `func` closure of `Tran_imp.solve_timestep` (lines 252-260):
reinsert zero into the reduced iterate `x` and into the reduced accepted state
`x0`, form `Geq = cir.C(x)/dt`, `ueq = -dot(Geq, xlast)`,
`f = cir.i(x) + dot(Geq, x) + cir.u(x) + ueq`, and eliminate the reference
element from `f`. -/
def Tran_imp_func (cir : TranCircuit) (irefnode : ℕ) (dt : ℚ) (x0 : Vec)
    (x : Vec) : Vec :=
  let xf := reinsert_zero x irefnode
  let xlast := reinsert_zero x0 irefnode
  let Geq := matDivScalar (cir.Cmat xf) dt
  let ueq := negVec (matVec Geq xlast)
  let f := vecAdd (vecAdd (vecAdd (cir.ivec xf) (matVec Geq xf)) (cir.uvec xf)) ueq
  remove_row_col_vec f irefnode

/-- The local `fprime` closure of `Tran_imp.solve_timestep` (lines 261-266):
reinsert zero, form `J = cir.G(x) + cir.C(x)/dt`, and eliminate the reference
row and column. -/
def Tran_imp_fprime (cir : TranCircuit) (irefnode : ℕ) (dt : ℚ)
    (x : Vec) : Mat :=
  let xf := reinsert_zero x irefnode
  let Geq := matDivScalar (cir.Cmat xf) dt
  let J := matAdd (cir.Gmat xf) Geq
  remove_row_col_mat J irefnode

/-- Embedding of `Tran_imp.solve_timestep(x0, dt, refnode)` (lines 243-273).
The body first defines the `func` and `fprime` closures and binds the unused
`rtol = 1e-4`, then evaluates `fsolve(func, x0, fprime=fprime)` (line 270) —
but `fsolve` is an unresolved global (only `from scipy import optimize` is
imported), so every call raises `NameError` there, before anything is handed
to a nonlinear solver. -/
def Tran_imp_solve_timestep (cir : TranCircuit)
    (x0 : Vec) (dt : ℚ) (irefnode : ℕ) : Except PyErr Vec :=
  let _func : Vec → Vec := Tran_imp_func cir irefnode dt x0
  let _fprime : Vec → Mat := Tran_imp_fprime cir irefnode dt
  let _rtol : ℚ := 1 / 10000
  .error (.NameError ("fsolve"))

/-- The `for t in times` loop of `Tran_imp.solve`: each iteration calls
`solve_timestep(X[-1], dt)` and appends the accepted state. -/
def tran_imp_run (stepf : Vec → Except PyErr Vec) :
    List ℚ → List Vec → Except PyErr (List Vec)
  | [], X => .ok X
  | _t :: ts, X =>
    match stepf (pyLast X) with
    | .error e => .error e
    | .ok x => tran_imp_run stepf ts (X ++ [x])

/-- Embedding of `Tran_imp.solve(refnode, tend, x0, timestep)` (lines 276-298).  The seed
state omits the reference node (`zeros(n-1)` by default) and the history
starts with `order = 1` copy of it; the grid is built exactly as in
`Tran_spec.solve`.  Returns the retained history and the final state (the
final time of the Python pair `(x, t)` is determined by the grid and is not
modelled separately). -/
def Tran_imp_solve (cir : TranCircuit) (irefnode : ℕ)
    (tend timestep : ℚ) (x0 : Option Vec) : Except PyErr (List Vec × Vec) :=
  let x : Vec := match x0 with
    | none => zeroVec (cir.n - 1)
    | some v => v
  let N : ℕ := numSteps tend timestep
  let dt : ℚ := tend / ((N : ℚ) - 1)
  let times : List ℚ := linspaceQ tend N
  match tran_imp_run
      (fun xl => Tran_imp_solve_timestep cir xl dt irefnode) times [x] with
  | .error e => .error e
  | .ok X => .ok (X, pyLast X)

/-- The backward-Euler residual as the spec words it (§4.3, step 1):
`F(x) = i(x) + Geq(x)·x + u(x) + ueq` with `Geq(x) = C(x)/dt` and
`ueq = -Geq(x)·x(k)`, both evaluated with the reference node reinserted as
zero and then with the reference row/column eliminated. -/
def backwardEulerResidual (cir : TranCircuit) (irefnode : ℕ) (dt : ℚ)
    (xk : Vec) (x : Vec) : Vec :=
  let xfull := reinsert_zero x irefnode
  let xkfull := reinsert_zero xk irefnode
  let Geq := matDivScalar (cir.Cmat xfull) dt
  let ueq := negVec (matVec Geq xkfull)
  remove_row_col_vec
    (vecAdd (cir.ivec xfull)
      (vecAdd (matVec Geq xfull) (vecAdd (cir.uvec xfull) ueq))) irefnode

/-- The backward-Euler Jacobian as the spec words it: `J(x) = G(x) + Geq(x)`,
evaluated with the reference node reinserted as zero, then with the reference
row/column eliminated. -/
def backwardEulerJacobian (cir : TranCircuit) (irefnode : ℕ) (dt : ℚ)
    (x : Vec) : Mat :=
  let xfull := reinsert_zero x irefnode
  remove_row_col_mat
    (matAdd (cir.Gmat xfull) (matDivScalar (cir.Cmat xfull) dt)) irefnode

/-! ### The implicit step fails before reaching any solver -/

theorem vecAdd_assoc (a b c : Vec) :
    vecAdd (vecAdd a b) c = vecAdd a (vecAdd b c) := by
  induction a generalizing b c with
  | nil => simp [vecAdd]
  | cons x xs ih =>
    cases b with
    | nil => simp [vecAdd]
    | cons y ys =>
      cases c with
      | nil => simp [vecAdd]
      | cons z zs =>
        show (x + y + z) :: vecAdd (vecAdd xs ys) zs
          = (x + (y + z)) :: vecAdd xs (vecAdd ys zs)
        rw [add_assoc, ih]

theorem Tran_imp_func_eq_residual (cir : TranCircuit) (irefnode : ℕ)
    (dt : ℚ) (xk : Vec) :
    Tran_imp_func cir irefnode dt xk
      = backwardEulerResidual cir irefnode dt xk := by
  funext x
  simp only [Tran_imp_func, backwardEulerResidual, vecAdd_assoc]

theorem Tran_imp_fprime_eq_jacobian (cir : TranCircuit) (irefnode : ℕ)
    (dt : ℚ) :
    Tran_imp_fprime cir irefnode dt = backwardEulerJacobian cir irefnode dt := rfl

theorem tran_imp_run_nil (stepf : Vec → Except PyErr Vec) (X : List Vec) :
    tran_imp_run stepf [] X = .ok X := rfl

theorem tran_imp_run_name_error (cir : TranCircuit) (irefnode : ℕ) (dt : ℚ)
    (t : ℚ) (ts : List ℚ) (X : List Vec) :
    tran_imp_run (fun xl => Tran_imp_solve_timestep cir xl dt irefnode)
        (t :: ts) X
      = .error (.NameError ("fsolve")) := rfl

theorem Tran_imp_solve_name_error (cir : TranCircuit) (irefnode : ℕ)
    (tend timestep : ℚ) (x0 : Option Vec)
    (hN : 1 ≤ numSteps tend timestep) :
    Tran_imp_solve cir irefnode tend timestep x0
      = .error (.NameError ("fsolve")) := by
  cases htimes : linspaceQ tend (numSteps tend timestep) with
  | nil =>
    exfalso
    have hl := length_linspaceQ tend (numSteps tend timestep)
    rw [htimes] at hl
    simp at hl
    omega
  | cons t ts =>
    simp only [Tran_imp_solve, htimes, tran_imp_run_name_error]

/-- C3: the code does define the claimed residual closure
`F(x) = i(x) + Geq(x)·x + u(x) + ueq` (with `Geq(x) = C(x)/dt`,
`ueq = -Geq(x)·x(k)`) and the claimed Jacobian closure `J(x) = G(x) + Geq(x)`,
both with the reference node reinserted as zero and then eliminated, and
`Tran_imp.solve` keeps an `order = 1` reference-excluded history — but the
bare name `fsolve` at line 270 is unresolved (only `from scipy import
optimize` is imported), so every call to `solve_timestep` raises `NameError`
before anything is handed to a nonlinear solver: no solve is ever seeded at
`x(k)` and no state is ever accepted into the history; the enclosing
`Tran_imp.solve` fails at its very first grid point. -/
theorem tran_imp_solve_timestep_name_error (cir : TranCircuit)
    (irefnode : ℕ) (dt : ℚ) (xk : Vec)
    (tend timestep : ℚ) (x0 : Option Vec)
    (hN : 1 ≤ numSteps tend timestep) :
    Tran_imp_func cir irefnode dt xk = backwardEulerResidual cir irefnode dt xk ∧
    Tran_imp_fprime cir irefnode dt = backwardEulerJacobian cir irefnode dt ∧
    Tran_imp_solve_timestep cir xk dt irefnode
      = .error (.NameError ("fsolve")) ∧
    Tran_imp_solve cir irefnode tend timestep x0
      = .error (.NameError ("fsolve")) :=
  ⟨Tran_imp_func_eq_residual cir irefnode dt xk,
   Tran_imp_fprime_eq_jacobian cir irefnode dt, rfl,
   Tran_imp_solve_name_error cir irefnode tend timestep x0 hN⟩

/-- Witness for C3 at a concrete circuit and grid (`tend = 1`,
`timestep = 1/4`, so the loop would take `N = 4 ≥ 1` steps): the first
implicit step already fails with `NameError`. -/
theorem tran_imp_solve_timestep_name_error_witness :
    (1 ≤ numSteps 1 (1/4)) ∧
    Tran_imp_solve_timestep
        ⟨2, fun _ => [[1, 0], [0, 0]], fun _ => [[1, 0], [0, 1]],
          fun _ => [1, 1], fun _ => [1, 1]⟩ [1] 1 0
      = .error (.NameError ("fsolve")) ∧
    Tran_imp_solve
        ⟨2, fun _ => [[1, 0], [0, 0]], fun _ => [[1, 0], [0, 1]],
          fun _ => [1, 1], fun _ => [1, 1]⟩ 0 1 (1/4) none
      = .error (.NameError ("fsolve")) := by
  have hN : 1 ≤ numSteps 1 (1/4) := by rw [numSteps_one_quarter]; omega
  have h := tran_imp_solve_timestep_name_error
    ⟨2, fun _ => [[1, 0], [0, 0]], fun _ => [[1, 0], [0, 1]],
      fun _ => [1, 1], fun _ => [1, 1]⟩ 0 1 [1] 1 (1/4) none hN
  exact ⟨hN, h.2.2.1, h.2.2.2⟩

/-- C9: the engine never produces `NoConvergenceError`: the exception class
defined at analysis.py line 22 is raised nowhere, the bound `rtol = 1e-4`
(line 268) is never used and no convergence check exists — what the step
actually raises, on every call, is the `NameError` from the unresolved name
`fsolve` at line 270, which propagates out of `Tran_imp.solve` unchanged, so
the claimed `NoConvergenceError` propagation never happens. -/
theorem tran_imp_never_raises_no_convergence (cir : TranCircuit)
    (irefnode : ℕ) (dt : ℚ) (xk : Vec)
    (tend timestep : ℚ) (x0 : Option Vec) :
    Tran_imp_solve_timestep cir xk dt irefnode
      = .error (.NameError ("fsolve")) ∧
    Tran_imp_solve_timestep cir xk dt irefnode
      ≠ .error PyErr.NoConvergenceError ∧
    Tran_imp_solve cir irefnode tend timestep x0
      ≠ .error PyErr.NoConvergenceError := by
  refine ⟨rfl, by simp [Tran_imp_solve_timestep], ?_⟩
  cases htimes : linspaceQ tend (numSteps tend timestep) with
  | nil =>
    simp [Tran_imp_solve, htimes, tran_imp_run_nil]
  | cons t ts =>
    simp [Tran_imp_solve, htimes, tran_imp_run_name_error]

/-- Witness for C9 at a concrete circuit, step and grid: the step fails with
`NameError` (not `NoConvergenceError`), and the enclosing solve never
surfaces `NoConvergenceError`. -/
theorem tran_imp_never_raises_no_convergence_witness :
    Tran_imp_solve_timestep
        ⟨2, fun _ => [[1, 0], [0, 0]], fun _ => [[1, 0], [0, 1]],
          fun _ => [1, 1], fun _ => [1, 1]⟩ [1] 1 0
      = .error (.NameError ("fsolve")) ∧
    Tran_imp_solve
        ⟨2, fun _ => [[1, 0], [0, 0]], fun _ => [[1, 0], [0, 1]],
          fun _ => [1, 1], fun _ => [1, 1]⟩ 0 1 1 none
      ≠ .error PyErr.NoConvergenceError := by
  have h := tran_imp_never_raises_no_convergence
    ⟨2, fun _ => [[1, 0], [0, 0]], fun _ => [[1, 0], [0, 1]],
      fun _ => [1, 1], fun _ => [1, 1]⟩ 0 1 [1] 1 1 none
  exact ⟨h.1, h.2.2⟩

/-- C10: when the external linear solver fails on the reduced forward-Euler
system (numpy's `linalg.solve` raising its own `LinAlgError` on a singular
matrix), `Tran_spec`'s step propagates that error unchanged: the engine never
converts it into the `SingularMatrix` exception it declares (analysis.py line
25 defines the class, but no code path raises it). -/
theorem tran_spec_singular_propagates (cir : TranCircuit) (solver : LinSolver)
    (irefnode : ℕ) (dt : ℚ) (xlast xprev : Vec) (e : PyErr)
    (h : solver
        (remove_row_col_mat
          (matAdd (cir.Gmat xlast) (matDivScalar (cir.Cmat xlast) dt)) irefnode)
        (negVec (remove_row_col_vec
          (vecAdd (cir.uvec xlast)
            (negVec (matVec (matDivScalar (cir.Cmat xlast) dt) xprev))) irefnode))
      = .error e) :
    tran_spec_step cir solver irefnode dt xlast xprev = .error e := by
  simp only [tran_spec_step, h]

/-- A concrete two-node circuit whose node 1 floats: after eliminating the
reference node 0, the reduced conductance matrix is the singular `[[0]]`. -/
def floatingCircuit : TranCircuit :=
  ⟨2, fun _ => [[1, 0], [0, 0]], fun _ => [[0, 0], [0, 0]],
    fun _ => [0, 0], fun _ => [0, 0]⟩

/-- A concrete linear solver behaving like numpy's `linalg.solve` on the
singular matrix `[[0]]`: it raises `LinAlgError`. -/
def numpyLikeSolver : LinSolver := fun A b =>
  if A = ([[0]] : Mat) then .error .LinAlgError else .ok b

/-- Witness for C10: on the floating-node circuit the reduced forward-Euler
matrix is singular, the numpy-like solver fails with `LinAlgError`, and the
explicit step surfaces exactly that error — a different value from the
engine's never-raised `SingularMatrix`. -/
theorem tran_spec_singular_propagates_witness :
    (numpyLikeSolver
      (remove_row_col_mat
        (matAdd (floatingCircuit.Gmat [0, 0])
          (matDivScalar (floatingCircuit.Cmat [0, 0]) 1)) 0)
      (negVec (remove_row_col_vec
        (vecAdd (floatingCircuit.uvec [0, 0])
          (negVec (matVec (matDivScalar (floatingCircuit.Cmat [0, 0]) 1)
            [0, 0]))) 0))
      = .error .LinAlgError) ∧
    tran_spec_step floatingCircuit numpyLikeSolver 0 1 [0, 0] [0, 0]
      = .error PyErr.LinAlgError ∧
    PyErr.LinAlgError ≠ PyErr.SingularMatrix := by
  have h : numpyLikeSolver
      (remove_row_col_mat
        (matAdd (floatingCircuit.Gmat [0, 0])
          (matDivScalar (floatingCircuit.Cmat [0, 0]) 1)) 0)
      (negVec (remove_row_col_vec
        (vecAdd (floatingCircuit.uvec [0, 0])
          (negVec (matVec (matDivScalar (floatingCircuit.Cmat [0, 0]) 1)
            [0, 0]))) 0))
      = .error .LinAlgError := by
    norm_num [numpyLikeSolver, floatingCircuit, remove_row_col_mat,
      remove_row_col_vec, matAdd, matDivScalar, vecAdd, negVec, matVec,
      dotProd, List.eraseIdx]
  exact ⟨h, tran_spec_singular_propagates floatingCircuit numpyLikeSolver
    0 1 [0, 0] [0, 0] .LinAlgError h, by decide⟩

/-! ## Exact complex scalars for the small-signal solvers

The AC, transimpedance and noise solvers compute with complex floating-point
scalars.  They are modelled exactly by Gaussian rationals `a + b·i` (every
complex float is such a number, including numpy's float constant `pi`, which
is therefore passed in as a rational parameter `piv`). -/

@[ext]
structure GaussRat : Type where
  re : ℚ
  im : ℚ
deriving DecidableEq, Repr

instance : Zero GaussRat := ⟨⟨0, 0⟩⟩

instance : One GaussRat := ⟨⟨1, 0⟩⟩

instance : Add GaussRat := ⟨fun z w => ⟨z.re + w.re, z.im + w.im⟩⟩

instance : Neg GaussRat := ⟨fun z => ⟨-z.re, -z.im⟩⟩

instance : Sub GaussRat := ⟨fun z w => ⟨z.re - w.re, z.im - w.im⟩⟩

instance : Mul GaussRat :=
  ⟨fun z w => ⟨z.re * w.re - z.im * w.im, z.re * w.im + z.im * w.re⟩⟩

instance : Inv GaussRat :=
  ⟨fun z => ⟨z.re / (z.re ^ 2 + z.im ^ 2), -z.im / (z.re ^ 2 + z.im ^ 2)⟩⟩

instance : Div GaussRat := ⟨fun z w => z * w⁻¹⟩

theorem GaussRat.zero_def : (0 : GaussRat) = ⟨0, 0⟩ := rfl

theorem GaussRat.one_def : (1 : GaussRat) = ⟨1, 0⟩ := rfl

theorem GaussRat.add_def (z w : GaussRat) :
    z + w = ⟨z.re + w.re, z.im + w.im⟩ := rfl

theorem GaussRat.neg_def (z : GaussRat) : -z = ⟨-z.re, -z.im⟩ := rfl

theorem GaussRat.sub_def (z w : GaussRat) :
    z - w = ⟨z.re - w.re, z.im - w.im⟩ := rfl

theorem GaussRat.mul_def (z w : GaussRat) :
    z * w = ⟨z.re * w.re - z.im * w.im, z.re * w.im + z.im * w.re⟩ := rfl

theorem GaussRat.inv_def (z : GaussRat) :
    z⁻¹ = ⟨z.re / (z.re ^ 2 + z.im ^ 2), -z.im / (z.re ^ 2 + z.im ^ 2)⟩ := rfl

theorem GaussRat.div_def (z w : GaussRat) : z / w = z * w⁻¹ := rfl

theorem GaussRat.zero_re : (0 : GaussRat).re = 0 := rfl

theorem GaussRat.zero_im : (0 : GaussRat).im = 0 := rfl

theorem GaussRat.one_re : (1 : GaussRat).re = 1 := rfl

theorem GaussRat.one_im : (1 : GaussRat).im = 0 := rfl

theorem transpose_one_one {α : Type} (a : α) :
    List.transpose [[a]] = [[a]] := rfl

/-- numpy's `conj` on a complex scalar. -/
def GaussRat.conj (z : GaussRat) : GaussRat := ⟨z.re, -z.im⟩

/-- numpy's `abs(z)**2` for a complex scalar: the exact value
`re² + im²` embedded back as a (real-valued) complex scalar, matching the
complex-by-real division it is used in. -/
def GaussRat.absSq (z : GaussRat) : GaussRat := ⟨z.re ^ 2 + z.im ^ 2, 0⟩

/-- The imaginary unit (Python's `1j`). -/
def GaussRat.J : GaussRat := ⟨0, 1⟩

/-- The scalar `2j*pi` with numpy's float constant `pi` passed in exactly as
the rational `piv`. -/
def twoJPi (piv : ℚ) : GaussRat := (⟨0, 2⟩ : GaussRat) * ⟨piv, 0⟩

abbrev Cx := GaussRat

abbrev CVec := List Cx

abbrev CMat := List (List Cx)

/-- The toolkit collaborator for the small-signal solvers:
`linearsolver(A, b)` solves `A·x = b`, and `toMatrix` converts to the
backend's dense representation (applied to a matrix or to a vector). -/
structure CxToolkit where
  linearsolver : CMat → CVec → CVec
  toMatrixM : CMat → CMat
  toMatrixV : CVec → CVec

/-! ## AC (small-signal) solver (`AC.solve`, analysis.py lines 335-379) -/

/-- The circuit collaborator as consumed by `AC.solve`: `n`, `G(x)`, `C(x)`,
the excitation `u(x, analysis='ac')` (the `analysis='ac'` keyword is folded
into `uf`), and the resolved reference-node index
`cir.get_node_index(refnode)`. -/
structure ACSetup where
  n : ℕ
  Gf : CVec → CMat
  Cf : CVec → CMat
  uf : CVec → CVec
  irefnode : ℕ

/-- The shape of `AC.solve`'s result: per-unknown frequency waveforms for a
frequency sweep, a single complex vector otherwise; `xac` and `xacdot`
correspond to the `x` and `xdot` handed to `CircuitResultAC`. -/
inductive ACOut : Type
  | sweep (xac xacdot : List CVec) : ACOut
  | single (xac xacdot : CVec) : ACOut
deriving DecidableEq, Repr

/-- The result of `AC.solve`: the operating point `x` (`xdcop`) together with
the solved waveforms. -/
structure ACResultM : Type where
  xdcop : CVec
  out : ACOut
deriving DecidableEq, Repr

/-- Embedding of `AC.solve(freqs, refnode, complexfreq, u)` (analysis.py lines 335-379),
translated statement by statement: `x = zeros(n)`; `G = cir.G(x)`;
`C = cir.C(x)`; `u = cir.u(x, analysis='ac')` when the caller passed no custom
`u`; eliminate the reference row/column from `G, C, u`; `ss = freqs` when
`complexfreq` else `2j*pi*freqs`; `solvecircuit(s)` solves `(s*C + G)·x' = -u`
and reinserts the reference zero; for an iterable `freqs` the per-frequency
solutions are transposed into per-unknown waveforms (`swapaxes(0,1)`) and
`xacdot = [ss * xi for xi in xac]`, otherwise `xacdot = ss * xac`. -/
def AC_solve (ac : ACSetup) (tk : CxToolkit) (piv : ℚ)
    (freqs : List Cx ⊕ Cx) (complexfreq : Bool) (uarg : Option CVec) :
    ACResultM :=
  let n := ac.n
  let x : CVec := zeroVec n
  let G := ac.Gf x
  let C := ac.Cf x
  let u : CVec := match uarg with
    | none => ac.uf x
    | some u0 => u0
  let irefnode := ac.irefnode
  let G1 := remove_row_col_mat G irefnode
  let C1 := remove_row_col_mat C irefnode
  let u1 := remove_row_col_vec u irefnode
  match freqs with
  | .inl fs =>
    let ss := if complexfreq then fs else fs.map (fun f => twoJPi piv * f)
    let out := ss.map (fun s =>
      reinsert_zero (tk.linearsolver (matAdd (smulMat s C1) G1) (negVec u1))
        irefnode)
    let xac := out.transpose
    let xacdot := xac.map (fun xi => List.zipWith (· * ·) ss xi)
    ⟨x, .sweep xac xacdot⟩
  | .inr f =>
    let s := if complexfreq then f else twoJPi piv * f
    let xac := reinsert_zero
      (tk.linearsolver (matAdd (smulMat s C1) G1) (negVec u1)) irefnode
    let xacdot := smulVec s xac
    ⟨x, .single xac xacdot⟩

/-- One AC frequency point as §4.4 of the spec describes it: with
`G = G(x₀)`, `C = C(x₀)` at the all-zero operating point and the default
excitation `u = u(x₀, analysis='ac')` unless the caller supplied one, all with
the reference node eliminated, solve `(s·C + G)·x' = -u` as an independent
linear solve and reinsert the reference-node zero. -/
def acIndependentSolve (ac : ACSetup) (tk : CxToolkit) (uarg : Option CVec)
    (s : Cx) : CVec :=
  let x0 : CVec := zeroVec ac.n
  let u : CVec := match uarg with
    | none => ac.uf x0
    | some u0 => u0
  reinsert_zero
    (tk.linearsolver
      (matAdd (smulMat s (remove_row_col_mat (ac.Cf x0) ac.irefnode))
        (remove_row_col_mat (ac.Gf x0) ac.irefnode))
      (negVec (remove_row_col_vec u ac.irefnode)))
    ac.irefnode

/-- C4: `AC.solve` evaluates `G`, `C` and the default `u` at the all-zero
operating point (custom `u` honoured when supplied), eliminates the reference
node, and solves `(s·C + G)·x' = -u` once per requested frequency as an
independent linear solve — `s` is the given value under `complexfreq` and
`2πj·f` otherwise — reinserting the reference zero per point; alongside `x`
it returns `xdot = s·x` (elementwise over the sweep: entry `k` of every
per-unknown `xdot` waveform is `s_k` times the matching entry of `x`). -/
theorem ac_solve_correct (ac : ACSetup) (tk : CxToolkit) (piv : ℚ)
    (complexfreq : Bool) (uarg : Option CVec) :
    (∀ f : Cx, AC_solve ac tk piv (.inr f) complexfreq uarg
      = ⟨zeroVec ac.n,
          .single
            (acIndependentSolve ac tk uarg
              (if complexfreq then f else twoJPi piv * f))
            (smulVec (if complexfreq then f else twoJPi piv * f)
              (acIndependentSolve ac tk uarg
                (if complexfreq then f else twoJPi piv * f)))⟩) ∧
    (∀ fs : List Cx, AC_solve ac tk piv (.inl fs) complexfreq uarg
      = ⟨zeroVec ac.n,
          .sweep
            (((if complexfreq then fs
                else fs.map (fun f => twoJPi piv * f)).map
              (acIndependentSolve ac tk uarg)).transpose)
            ((((if complexfreq then fs
                else fs.map (fun f => twoJPi piv * f)).map
              (acIndependentSolve ac tk uarg)).transpose).map
              (fun xi => List.zipWith (· * ·)
                (if complexfreq then fs
                  else fs.map (fun f => twoJPi piv * f)) xi))⟩) ∧
    (∀ (ss : List Cx) (xac : List CVec) (i k : ℕ),
      k < ss.length → k < (xac.getD i []).length →
      ((xac.map (fun xi => List.zipWith (· * ·) ss xi)).getD i []).getD k 0
        = ss.getD k 0 * ((xac.getD i []).getD k 0)) := by
  refine ⟨?_, ?_, ?_⟩
  · intro f
    cases uarg <;> rfl
  · intro fs
    cases uarg <;> rfl
  · intro ss xac i k hk hik
    rcases Nat.lt_or_ge i xac.length with hi | hi
    · have hi2 : i < (xac.map (fun xi => List.zipWith (· * ·) ss xi)).length := by
        rw [List.length_map]; exact hi
      rw [List.getD_eq_getElem _ _ hi2, List.getElem_map,
        List.getD_eq_getElem _ _ hi]
      rw [List.getD_eq_getElem _ _ hi] at hik
      have hzip : k < (List.zipWith (· * ·) ss xac[i]).length := by
        rw [List.length_zipWith]
        omega
      rw [List.getD_eq_getElem _ _ hzip, List.getElem_zipWith,
        List.getD_eq_getElem _ _ hk, List.getD_eq_getElem _ _ hik]
    · have hge : (xac.map (fun xi => List.zipWith (· * ·) ss xi)).length ≤ i := by
        rw [List.length_map]; exact hi
      rw [List.getD_eq_default _ _ hi] at hik
      exact absurd hik (by simp)

/-- A concrete `ACSetup` used by witnesses: a two-node resistive circuit. -/
def exampleACSetup : ACSetup :=
  ⟨2, fun _ => [[1, -1], [-1, 1]], fun _ => [[0, 0], [0, 0]],
    fun _ => [1, -1], 0⟩

/-- A concrete toolkit used by witnesses: a `1×1` back-substitution solver
and identity dense conversions. -/
def exampleToolkit : CxToolkit :=
  ⟨fun A b => [(b.getD 0 0) / ((A.getD 0 []).getD 0 1)], id, id⟩

/-- Witness for C4 at a concrete sweep: the `xdot = s·x` relation evaluated
at the concrete sweep `ss = [⟨3,0⟩]`, `xac = [[⟨2,0⟩]]`, plus the sweep-shape
equality at a singleton frequency list. -/
theorem ac_solve_correct_witness :
    ((0 < ([⟨3, 0⟩] : List Cx).length) ∧
      (0 < (([[⟨2, 0⟩]] : List CVec).getD 0 []).length)) ∧
    ((([[⟨2, 0⟩]] : List CVec).map
        (fun xi => List.zipWith (· * ·) ([⟨3, 0⟩] : List Cx) xi)).getD 0 []).getD 0 0
      = ([⟨3, 0⟩] : List Cx).getD 0 0
          * ((([[⟨2, 0⟩]] : List CVec).getD 0 []).getD 0 0) ∧
    AC_solve exampleACSetup exampleToolkit 0 (.inl [GaussRat.J]) true none
      = ⟨zeroVec 2,
          .sweep
            ((([GaussRat.J] : List Cx).map
              (acIndependentSolve exampleACSetup exampleToolkit none)).transpose)
            (((([GaussRat.J] : List Cx).map
              (acIndependentSolve exampleACSetup exampleToolkit none)).transpose).map
              (fun xi => List.zipWith (· * ·) ([GaussRat.J] : List Cx) xi))⟩ := by
  have h := ac_solve_correct exampleACSetup exampleToolkit 0 true none
  refine ⟨⟨by decide, by decide⟩,
    h.2.2 [⟨3, 0⟩] [[⟨2, 0⟩]] 0 0 (by decide) (by decide), ?_⟩
  simpa using h.2.1 [GaussRat.J]

/-! ## Transimpedance / reciprocal solver
(`TransimpedanceAnalysis.solve`, analysis.py lines 397-442) -/

/-- The circuit collaborator as consumed by `TransimpedanceAnalysis.solve`:
`n`, `G(x, epar)`, `C(x, epar)` (with `epar` folded in) and the resolved
reference index `cir.nodes.index(refnode)`. -/
structure TzSetup where
  n : ℕ
  Gf : CVec → CMat
  Cf : CVec → CMat
  irefnode : ℕ

/-- An output branch, with its externally-resolved indices:
`cir.get_branch_index(branch)`, `cir.get_node_index(branch.plus)` and
`cir.get_node_index(branch.minus)`. -/
structure OutBranch where
  ibranch : ℕ
  iplus : ℕ
  iminus : ℕ
deriving DecidableEq, Repr

/-- Embedding of `TransimpedanceAnalysis.solve(freqs, outbranches, currentoutput,
complexfreq, refnode)` (lines 397-442): `x = zeros(n)` at the nominal DC
state; `s = freqs` under `complexfreq` else `2j*pi*freqs`; eliminate the
reference row/column from `G, C`; `Yreciprocal = G.T + s*C.T`, converted by
`toolkit.toMatrix`; then for each output branch build the unit excitation
(`u[ibranch] = -1` for current output, `u[plus] = -1`, `u[minus] = 1` for
voltage output), eliminate its reference element, and append
`toolkit.linearsolver(Yreciprocal, -u)`. -/
def Transimpedance_solve (tz : TzSetup) (tk : CxToolkit) (piv : ℚ)
    (freqs : Cx) (outbranches : List OutBranch)
    (currentoutput complexfreq : Bool) : List CVec :=
  let n := tz.n
  let x : CVec := zeroVec n
  let s := if complexfreq then freqs else twoJPi piv * freqs
  let G := tz.Gf x
  let C := tz.Cf x
  let G1 := remove_row_col_mat G tz.irefnode
  let C1 := remove_row_col_mat C tz.irefnode
  let Yreciprocal := matAdd G1.transpose (smulMat s C1.transpose)
  let Y2 := tk.toMatrixM Yreciprocal
  outbranches.map (fun branch =>
    let u : CVec :=
      if currentoutput then (zeroVec n).set branch.ibranch (-1)
      else ((zeroVec n).set branch.iplus (-1)).set branch.iminus 1
    let u1 := remove_row_col_vec u tz.irefnode
    tk.linearsolver Y2 (negVec u1))

/-- The unit excitation of §4.5 of the spec: `-1` at the branch index for a
current-gain output; `-1` at the plus node and `+1` at the minus node for a
voltage output. -/
def tzUnitExcitation (n : ℕ) (currentoutput : Bool) (branch : OutBranch) :
    CVec :=
  if currentoutput then (zeroVec n).set branch.ibranch (-1)
  else ((zeroVec n).set branch.iplus (-1)).set branch.iminus 1

/-- One adjoint solve per output as §4.5 of the spec describes it:
`Y_reciprocal = Gᵗ + s·Cᵗ` from `G, C` at the nominal state with the reference
node eliminated, unit excitation with its reference element eliminated, then
`Y_reciprocal · z = -u`. -/
def tzAdjointSolve (tz : TzSetup) (tk : CxToolkit) (s : Cx)
    (currentoutput : Bool) (branch : OutBranch) : CVec :=
  tk.linearsolver
    (tk.toMatrixM
      (matAdd (remove_row_col_mat (tz.Gf (zeroVec tz.n)) tz.irefnode).transpose
        (smulMat s
          (remove_row_col_mat (tz.Cf (zeroVec tz.n)) tz.irefnode).transpose)))
    (negVec (remove_row_col_vec (tzUnitExcitation tz.n currentoutput branch)
      tz.irefnode))

/-- C5: `TransimpedanceAnalysis.solve` forms `Y_reciprocal = Gᵗ + s·Cᵗ` from
`G, C` at the nominal DC state with the reference node eliminated, and maps
every requested output branch to exactly one linear solve
`Y_reciprocal · z = -u` of its reference-eliminated unit excitation
(`-1` at the branch index for current gain; `-1`/`+1` at the plus/minus node
indices for voltage gain) — one result vector per output, in order. -/
theorem transimpedance_solve_correct (tz : TzSetup) (tk : CxToolkit)
    (piv : ℚ) (freqs : Cx) (outbranches : List OutBranch)
    (currentoutput complexfreq : Bool) :
    Transimpedance_solve tz tk piv freqs outbranches currentoutput complexfreq
      = outbranches.map
          (tzAdjointSolve tz tk
            (if complexfreq then freqs else twoJPi piv * freqs)
            currentoutput) ∧
    (Transimpedance_solve tz tk piv freqs outbranches currentoutput
        complexfreq).length = outbranches.length := by
  constructor
  · rfl
  · rw [Transimpedance_solve, List.length_map]

/-! ## Noise solver (`Noise`, analysis.py lines 445-603) -/

/-- The kind of the resolved input source instance `circuit[inputsrc]`:
a voltage source (`isinstance(…, VS)`), a current source
(`isinstance(…, IS)`), or any other element. -/
inductive SrcKind : Type
  | VS : SrcKind
  | IS : SrcKind
  | Other : SrcKind
deriving DecidableEq, Repr

/-- The circuit collaborator as consumed by `Noise.solve`: the matrix stamps
`G(x, epar)`, `C(x, epar)`, `CY(x, imag(s), epar)`; the resolved reference
index `cir.nodes.index(refnode)`; the resolved output-node index pair (when
`outputnodes` was given) or the resolved branch index of the output source's
plus terminal (otherwise); the kind of the resolved input source; and the
extraction functions `extract_i(zm, inputsrc.plus, refnode, refnode_removed=
True)` and `extract_v(zm, plus_node, refnode, refnode_removed=True)` applied
to the adjoint vector. -/
structure NoiseSetup where
  n : ℕ
  Gf : CVec → CMat
  Cf : CVec → CMat
  CYf : CVec → ℚ → CMat
  irefnode : ℕ
  outputnodes : Option (ℕ × ℕ)
  ibranchOut : ℕ
  inputKind : SrcKind
  extract_i : CVec → Cx
  extract_v : CVec → Cx

/-- Embedding of `Noise.solve(freqs, refnode, complexfreq)` (lines 526-603), translated
statement by statement: `x = zeros(n)`; `s = freqs` under `complexfreq` else
`2j*pi*freqs`; `G`, `C`, `CY(x, imag(s))`; the adjoint excitation `u`
(`u[ioutp] = -1`, `u[ioutn] = 1` for a node-pair voltage output, else
`u[ibranch] = -1` for a branch-current output); eliminate the reference
row/column from `G, C, u, CY`; `Yreciprocal = G.T + s*C.T`; `toMatrix` both
`Yreciprocal` and `u`; `zm = linearsolver(Yreciprocal, -u)`;
`xn2out = dot(dot(zm, CY), conj(zm))`; store `Svnout`/`Sinout` keyed by the
output kind; then, keyed by the *input-source* kind, store `gain` and the
input-referred density `xn2out / abs(gain)**2` (`Svninp` after `extract_i`
for a voltage source, `Sininp` after `extract_v` for a current source,
nothing otherwise). -/
def Noise_solve (ns : NoiseSetup) (tk : CxToolkit) (freqs : Cx)
    (complexfreq : Bool) (piv : ℚ) : List (String × Cx) :=
  let n := ns.n
  let x : CVec := zeroVec n
  let s : Cx := if complexfreq then freqs else twoJPi piv * freqs
  let G := ns.Gf x
  let C := ns.Cf x
  let CY := ns.CYf x s.im
  let u : CVec := match ns.outputnodes with
    | some p => ((zeroVec n).set p.1 (-1)).set p.2 1
    | none => (zeroVec n).set ns.ibranchOut (-1)
  let G1 := remove_row_col_mat G ns.irefnode
  let C1 := remove_row_col_mat C ns.irefnode
  let u1 := remove_row_col_vec u ns.irefnode
  let CY1 := remove_row_col_mat CY ns.irefnode
  let Yreciprocal := matAdd G1.transpose (smulMat s C1.transpose)
  let Y2 := tk.toMatrixM Yreciprocal
  let u2 := tk.toMatrixV u1
  let zm := tk.linearsolver Y2 (negVec u2)
  let xn2out := dotProd (vecMat zm CY1) (zm.map GaussRat.conj)
  let base : List (String × Cx) := match ns.outputnodes with
    | some _ => [("Svnout", xn2out)]
    | none => [("Sinout", xn2out)]
  match ns.inputKind with
  | .VS =>
    let gain := ns.extract_i zm
    base ++ [("gain", gain), ("Svninp", xn2out / GaussRat.absSq gain)]
  | .IS =>
    let gain := ns.extract_v zm
    base ++ [("gain", gain), ("Sininp", xn2out / GaussRat.absSq gain)]
  | .Other => base

/-- The adjoint transimpedance vector `zm` computed inside `Noise.solve`. -/
def Noise_zm (ns : NoiseSetup) (tk : CxToolkit) (freqs : Cx)
    (complexfreq : Bool) (piv : ℚ) : CVec :=
  let n := ns.n
  let x : CVec := zeroVec n
  let s : Cx := if complexfreq then freqs else twoJPi piv * freqs
  let u : CVec := match ns.outputnodes with
    | some p => ((zeroVec n).set p.1 (-1)).set p.2 1
    | none => (zeroVec n).set ns.ibranchOut (-1)
  tk.linearsolver
    (tk.toMatrixM
      (matAdd (remove_row_col_mat (ns.Gf x) ns.irefnode).transpose
        (smulMat s (remove_row_col_mat (ns.Cf x) ns.irefnode).transpose)))
    (negVec (tk.toMatrixV (remove_row_col_vec u ns.irefnode)))

/-- The output noise power `xn2out = z·CY·conj(z)ᵗ` computed inside
`Noise.solve`. -/
def Noise_xn2out (ns : NoiseSetup) (tk : CxToolkit) (freqs : Cx)
    (complexfreq : Bool) (piv : ℚ) : Cx :=
  let s : Cx := if complexfreq then freqs else twoJPi piv * freqs
  let zm := Noise_zm ns tk freqs complexfreq piv
  dotProd
    (vecMat zm (remove_row_col_mat (ns.CYf (zeroVec ns.n) s.im) ns.irefnode))
    (zm.map GaussRat.conj)

/-- The gain computed inside `Noise.solve`, when the input source is a
voltage or current source. -/
def Noise_gain (ns : NoiseSetup) (tk : CxToolkit) (freqs : Cx)
    (complexfreq : Bool) (piv : ℚ) : Option Cx :=
  match ns.inputKind with
  | .VS => some (ns.extract_i (Noise_zm ns tk freqs complexfreq piv))
  | .IS => some (ns.extract_v (Noise_zm ns tk freqs complexfreq piv))
  | .Other => none

/-- The key that carries the output noise density. -/
def noiseOutKey (ns : NoiseSetup) : String :=
  if ns.outputnodes.isSome then ("Svnout") else ("Sinout")

/-- The key that carries the input-referred noise density, determined by the
kind of the input source. -/
def noiseInpKey (k : SrcKind) : String :=
  match k with
  | .VS => "Svninp"
  | .IS => "Sininp"
  | .Other => ""

/-! ### Result-key structure of `Noise.solve` -/

/-- C7 (amended): the result mapping of `Noise.solve` contains `Svnout` when
`outputnodes` is given and `Sinout` when `outputsrc` is given; the `gain` key
and the input-referred key are determined by the *input source* kind — `gain`
and `Svninp` when the input source is a voltage source, `gain` and `Sininp`
when it is a current source, and no `gain` key at all otherwise. -/
theorem noise_result_keys (ns : NoiseSetup) (tk : CxToolkit) (freqs : Cx)
    (complexfreq : Bool) (piv : ℚ) :
    (Noise_solve ns tk freqs complexfreq piv).map Prod.fst
      = (if ns.outputnodes.isSome then ["Svnout"] else ["Sinout"])
        ++ (match ns.inputKind with
            | .VS => ["gain", "Svninp"]
            | .IS => ["gain", "Sininp"]
            | .Other => []) := by
  rcases hout : ns.outputnodes with _ | p <;>
    rcases hkind : ns.inputKind <;>
      simp [Noise_solve, hout, hkind]

/-- A concrete noise setup over two nodes with a node-pair voltage output and
a *current-source* input (`inputsrc` resolves to an `IS` instance). -/
def exampleNoiseIS : NoiseSetup :=
  ⟨2, fun _ => [[0, 0], [0, 1]], fun _ => [[0, 0], [0, 0]],
    fun _ _ => [[1, 1], [1, 1]], 0, some (1, 0), 0, .IS,
    fun z => GaussRat.J * z.getD 0 0, fun z => z.getD 0 0⟩

/-- Counterexample for C7: with a node-pair voltage output (`outputnodes`
given) but a current-source input, the result keys are
`Svnout`, `gain`, `Sininp` — the input-referred key is *not* `Svninp`, so the
keys are not determined by the output kind alone as the claim states. -/
theorem noise_result_keys_counterexample :
    exampleNoiseIS.outputnodes.isSome = true ∧
    (Noise_solve exampleNoiseIS exampleToolkit GaussRat.J true 0).map Prod.fst
      = ["Svnout", "gain", "Sininp"] ∧
    ¬ ("Svninp" ∈
      (Noise_solve exampleNoiseIS exampleToolkit GaussRat.J true 0).map
        Prod.fst) := by
  refine ⟨rfl, ?_, ?_⟩
  · simp [Noise_solve, exampleNoiseIS]
  · simp [Noise_solve, exampleNoiseIS]

/-! ### Gain referral in `Noise.solve` -/

theorem GaussRat.absSq_ne_zero (g : GaussRat) (hg : g ≠ 0) :
    g.re ^ 2 + g.im ^ 2 ≠ 0 := by
  intro h
  apply hg
  have h1 : g.re = 0 := by nlinarith [sq_nonneg g.re, sq_nonneg g.im]
  have h2 : g.im = 0 := by nlinarith [sq_nonneg g.re, sq_nonneg g.im]
  ext
  · simpa using h1
  · simpa using h2

theorem GaussRat.div_absSq_mul_cancel (x g : GaussRat) (hg : g ≠ 0) :
    (x / GaussRat.absSq g) * GaussRat.absSq g = x := by
  have hN : g.re ^ 2 + g.im ^ 2 ≠ 0 := GaussRat.absSq_ne_zero g hg
  ext
  · simp only [GaussRat.div_def, GaussRat.mul_def, GaussRat.inv_def,
      GaussRat.absSq]
    field_simp
    ring
  · simp only [GaussRat.div_def, GaussRat.mul_def, GaussRat.inv_def,
      GaussRat.absSq]
    field_simp
    ring

/-- C6 (amended): whenever `Noise.solve` computes a gain `g ≠ 0`, the result
is `[(outkey, xn2out), ("gain", g), (inpkey, xn2out / |g|²)]` — the
input-referred noise equals the output noise divided by `|gain|²` — and
consequently `Svninp · |gain|² = Svnout` (with the squared *modulus*, not the
square of the complex gain itself). -/
theorem noise_gain_referral_roundtrip (ns : NoiseSetup) (tk : CxToolkit)
    (freqs : Cx) (complexfreq : Bool) (piv : ℚ) (g : Cx)
    (hg : Noise_gain ns tk freqs complexfreq piv = some g) (h0 : g ≠ 0) :
    Noise_solve ns tk freqs complexfreq piv
      = [(noiseOutKey ns, Noise_xn2out ns tk freqs complexfreq piv),
         ("gain", g),
         (noiseInpKey ns.inputKind,
           Noise_xn2out ns tk freqs complexfreq piv / GaussRat.absSq g)] ∧
    (Noise_xn2out ns tk freqs complexfreq piv / GaussRat.absSq g)
        * GaussRat.absSq g
      = Noise_xn2out ns tk freqs complexfreq piv := by
  refine ⟨?_, GaussRat.div_absSq_mul_cancel _ g h0⟩
  rcases hkind : ns.inputKind with _ | _ | _
  · rw [Noise_gain, hkind] at hg
    have hgv : g = ns.extract_i (Noise_zm ns tk freqs complexfreq piv) := by
      exact (Option.some.inj hg).symm
    subst hgv
    rcases hout : ns.outputnodes with _ | p <;>
      simp [Noise_solve, Noise_xn2out, Noise_zm, noiseOutKey, noiseInpKey,
        hout, hkind]
  · rw [Noise_gain, hkind] at hg
    have hgv : g = ns.extract_v (Noise_zm ns tk freqs complexfreq piv) := by
      exact (Option.some.inj hg).symm
    subst hgv
    rcases hout : ns.outputnodes with _ | p <;>
      simp [Noise_solve, Noise_xn2out, Noise_zm, noiseOutKey, noiseInpKey,
        hout, hkind]
  · rw [Noise_gain, hkind] at hg
    exact absurd hg (by simp)

theorem Noise_solve_decompose (ns : NoiseSetup) (tk : CxToolkit) (freqs : Cx)
    (complexfreq : Bool) (piv : ℚ) :
    Noise_solve ns tk freqs complexfreq piv
      = (match ns.outputnodes with
         | some _ => [("Svnout", Noise_xn2out ns tk freqs complexfreq piv)]
         | none => [("Sinout", Noise_xn2out ns tk freqs complexfreq piv)])
        ++ (match ns.inputKind with
            | .VS =>
              [("gain", ns.extract_i (Noise_zm ns tk freqs complexfreq piv)),
               ("Svninp", Noise_xn2out ns tk freqs complexfreq piv
                 / GaussRat.absSq
                     (ns.extract_i (Noise_zm ns tk freqs complexfreq piv)))]
            | .IS =>
              [("gain", ns.extract_v (Noise_zm ns tk freqs complexfreq piv)),
               ("Sininp", Noise_xn2out ns tk freqs complexfreq piv
                 / GaussRat.absSq
                     (ns.extract_v (Noise_zm ns tk freqs complexfreq piv)))]
            | .Other => []) := by
  rcases hout : ns.outputnodes with _ | p <;>
    rcases hkind : ns.inputKind <;>
      simp [Noise_solve, Noise_zm, Noise_xn2out, hout, hkind]

theorem Noise_solve_eq_VS (ns : NoiseSetup) (tk : CxToolkit) (freqs : Cx)
    (complexfreq : Bool) (piv : ℚ) (p : ℕ × ℕ)
    (hout : ns.outputnodes = some p) (hk : ns.inputKind = .VS) :
    Noise_solve ns tk freqs complexfreq piv
      = [("Svnout", Noise_xn2out ns tk freqs complexfreq piv),
         ("gain", ns.extract_i (Noise_zm ns tk freqs complexfreq piv)),
         ("Svninp", Noise_xn2out ns tk freqs complexfreq piv
           / GaussRat.absSq
               (ns.extract_i (Noise_zm ns tk freqs complexfreq piv)))] := by
  rw [Noise_solve_decompose, hout, hk]
  rfl

/-- A concrete noise setup over two nodes with a node-pair voltage output and
a *voltage-source* input whose extracted gain is the imaginary unit. -/
def exampleNoiseVS : NoiseSetup :=
  ⟨2, fun _ => [[0, 0], [0, 1]], fun _ => [[0, 0], [0, 0]],
    fun _ _ => [[1, 1], [1, 1]], 0, some (1, 0), 0, .VS,
    fun z => GaussRat.J * z.getD 0 0, fun z => z.getD 0 0⟩

/-- Counterexample for C6: on `exampleNoiseVS` the engine returns
`Svnout = 1`, `gain = i`, `Svninp = 1` — and `Svninp · gain² = i² = -1 ≠ 1 =
Svnout`, so `Svninp · gain² == Svnout` fails for a complex gain (the correct
round trip uses `|gain|²`). -/
theorem noise_gain_referral_counterexample :
    Noise_solve exampleNoiseVS exampleToolkit GaussRat.J true 0
      = [("Svnout", (⟨1, 0⟩ : Cx)), ("gain", GaussRat.J),
         ("Svninp", (⟨1, 0⟩ : Cx))] ∧
    (⟨1, 0⟩ : Cx) * (GaussRat.J * GaussRat.J) ≠ (⟨1, 0⟩ : Cx) := by
  have hzm : Noise_zm exampleNoiseVS exampleToolkit GaussRat.J true 0
      = [⟨1, 0⟩] := by
    simp [Noise_zm, exampleNoiseVS, exampleToolkit, zeroVec,
      remove_row_col_mat, remove_row_col_vec, matAdd, vecAdd, smulMat,
      smulVec, negVec, dotProd, GaussRat.J, List.eraseIdx, transpose_one_one,
      List.replicate, GaussRat.mul_def, GaussRat.add_def, GaussRat.neg_def,
      GaussRat.div_def, GaussRat.inv_def, GaussRat.zero_re,
      GaussRat.zero_im, GaussRat.one_re, GaussRat.one_im, GaussRat.mk.injEq]
  have hxn : Noise_xn2out exampleNoiseVS exampleToolkit GaussRat.J true 0
      = ⟨1, 0⟩ := by
    rw [Noise_xn2out, hzm]
    simp [exampleNoiseVS, zeroVec, remove_row_col_mat, remove_row_col_vec,
      vecMat, dotProd, GaussRat.conj, GaussRat.J, List.eraseIdx,
      transpose_one_one, List.replicate, GaussRat.mul_def, GaussRat.add_def,
      GaussRat.neg_def, GaussRat.zero_re, GaussRat.zero_im, GaussRat.one_re,
      GaussRat.one_im, GaussRat.mk.injEq]
  have hgain : exampleNoiseVS.extract_i
      (Noise_zm exampleNoiseVS exampleToolkit GaussRat.J true 0)
      = GaussRat.J := by
    rw [show exampleNoiseVS.extract_i
        = fun z : CVec => GaussRat.J * z.getD 0 0 from rfl, hzm]
    simp [GaussRat.J, GaussRat.mul_def, GaussRat.mk.injEq]
  constructor
  · rw [Noise_solve_eq_VS exampleNoiseVS exampleToolkit GaussRat.J true 0
      (1, 0) rfl rfl, hxn, hgain]
    have habs : GaussRat.absSq GaussRat.J = ⟨1, 0⟩ := by
      simp [GaussRat.absSq, GaussRat.J, GaussRat.mk.injEq]
    rw [habs]
    have hdiv : (⟨1, 0⟩ : Cx) / ⟨1, 0⟩ = ⟨1, 0⟩ := by
      simp [GaussRat.div_def, GaussRat.inv_def, GaussRat.mul_def,
        GaussRat.mk.injEq]
    rw [hdiv]
  · intro h
    rw [GaussRat.mul_def, GaussRat.mul_def] at h
    have := congrArg GaussRat.re h
    norm_num [GaussRat.J] at this

/-- Witness for C6 (amended) on `exampleNoiseVS`: the computed gain is the
nonzero `i`, and the referral round trip holds with `|gain|²`. -/
theorem noise_gain_referral_roundtrip_witness :
    (Noise_gain exampleNoiseVS exampleToolkit GaussRat.J true 0
        = some GaussRat.J ∧ GaussRat.J ≠ (0 : Cx)) ∧
    (Noise_xn2out exampleNoiseVS exampleToolkit GaussRat.J true 0
        / GaussRat.absSq GaussRat.J) * GaussRat.absSq GaussRat.J
      = Noise_xn2out exampleNoiseVS exampleToolkit GaussRat.J true 0 := by
  have hg : Noise_gain exampleNoiseVS exampleToolkit GaussRat.J true 0
      = some GaussRat.J := by
    simp [Noise_gain, Noise_zm, exampleNoiseVS, exampleToolkit, zeroVec,
      remove_row_col_mat, remove_row_col_vec, matAdd, vecAdd, smulMat,
      smulVec, negVec, dotProd, GaussRat.J, List.eraseIdx, transpose_one_one,
      List.replicate, GaussRat.mul_def, GaussRat.add_def, GaussRat.neg_def,
      GaussRat.div_def, GaussRat.inv_def, GaussRat.zero_re,
      GaussRat.zero_im, GaussRat.one_re, GaussRat.one_im, GaussRat.mk.injEq]
  have h0 : GaussRat.J ≠ (0 : Cx) := by
    intro h
    have := congrArg GaussRat.im h
    norm_num [GaussRat.J, GaussRat.zero_im] at this
  exact ⟨⟨hg, h0⟩,
    (noise_gain_referral_roundtrip exampleNoiseVS exampleToolkit GaussRat.J
      true 0 GaussRat.J hg h0).2⟩

/-! ### `Noise.__init__` validation (analysis.py lines 488-524) -/

/-- The kind of value passed for `inputsrc` / `outputsrc`: Python `None`, a
string instance name, or an object reference (anything else). -/
inductive SrcRef : Type
  | noneRef : SrcRef
  | nameRef : SrcRef
  | objRef : SrcRef
deriving DecidableEq, Repr

/-- Whether `type(r) is types.StringType`. -/
def SrcRef.isStr : SrcRef → Bool
  | .nameRef => true
  | _ => false

/-- The `Noise.__init__` validation (lines 509-517), with Python's operator
precedence preserved: the third test reads
`not (type(inputsrc) is StringType and outputsrc == None
      or type(outputsrc) is StringType)`,
which parses as `not ((A and B) or C)`. -/
def Noise_init_validate (outputnodesGiven : Bool)
    (inputsrc outputsrc : SrcRef) : Except PyErr Unit :=
  if ¬ (outputnodesGiven = true ∨ outputsrc ≠ .noneRef) then
    .error (.ValueError ("Output is not specified"))
  else if outputnodesGiven = true ∧ outputsrc ≠ .noneRef then
    .error (.ValueError ("Cannot measure both output current and voltage noise"))
  else if ¬ ((inputsrc.isStr = true ∧ outputsrc = .noneRef)
      ∨ outputsrc.isStr = true) then
    .error (.ValueError ("Sources must be given as instance names"))
  else .ok ()

/-- C8: the constructor does reject a missing output and a doubly-specified
output, and it rejects a non-string `inputsrc` when only `outputnodes` is
given — but, because `A and B or C` parses as `(A and B) or C`, a non-string
(object-reference) `inputsrc` passes validation whenever `outputsrc` is a
string name: the claimed name-validation of `inputsrc` is not enforced in
that configuration. -/
theorem noise_init_validation_precedence :
    Noise_init_validate false .nameRef .noneRef
      = .error (.ValueError ("Output is not specified")) ∧
    Noise_init_validate true .nameRef .nameRef
      = .error
          (.ValueError ("Cannot measure both output current and voltage noise")) ∧
    Noise_init_validate true .objRef .noneRef
      = .error (.ValueError ("Sources must be given as instance names")) ∧
    Noise_init_validate false .objRef .nameRef = .ok () := by
  refine ⟨rfl, rfl, rfl, rfl⟩

end PyCircuit
